import Mathlib

/-
  Shallow embedding of src/pass/inject_double_buffer.cc (TVM double-buffer
  injection pass) together with proofs about its specified properties.

  Modelling conventions:
  - IR variables and buffer handles are identified by natural-number ids
    (the C++ code keys its tables by Variable* / For* pointer identity;
    here loop tables are keyed by the loop variable id, which is faithful
    as long as distinct loops carry distinct loop variables, the situation
    the pass itself relies on when it rebuilds the tree).
  - Machine integer expressions evaluate over Int.  The TVM Div node uses
    C truncated division, modelled by Int.tdiv; indexmod is floor modulo,
    modelled by Int.emod.  The operands this pass divides are nonnegative,
    where the two conventions agree.
  - Fatal CHECK / LOG(FATAL) conditions are modelled by Except.error.
  - Fresh variables (the .db switch variable, the .outer split variable)
    are drawn from a counter threaded through the traversal state.
-/

namespace DoubleBufferPass

/-- Attribute keys distinguished by the pass; every other key behaves
    uniformly and is collapsed into the catch-all constructor. -/
inductive AttrKey where
  | storage_scope
  | double_buffer_scope
  | double_buffer_write
  | other (name : String)
deriving DecidableEq, Repr

/-- Expressions of the host IR, restricted to the node kinds the pass
    inspects or constructs.  Div is the TVM division node (C truncation
    semantics); Mod is indexmod (floor semantics). -/
inductive Expr where
  | IntImm (v : Int)
  | StringImm (s : String)
  | Var (id : Nat)
  | Add (a b : Expr)
  | Sub (a b : Expr)
  | Mul (a b : Expr)
  | Div (a b : Expr)
  | Mod (a b : Expr)
  | LT (a b : Expr)
  | Load (buf : Nat) (index pred : Expr)
deriving DecidableEq, Repr

/-- Statements of the host IR, restricted to the node kinds the pass
    inspects or constructs.  Allocate carries the lane count of its dtype
    as an Int; SeqStmt is modelled as a binary sequence node (the external
    SeqStmt flatten utility is seqOf below). -/
inductive Stmt where
  | Evaluate (e : Expr)
  | Store (buf : Nat) (value index pred : Expr)
  | Allocate (buf : Nat) (lanes : Int) (extents : List Expr) (cond : Expr) (body : Stmt)
  | AttrStmt (node : Nat) (key : AttrKey) (value : Expr) (body : Stmt)
  | For (loopVar : Nat) (min extent : Expr) (body : Stmt)
  | IfThenElse (cond : Expr) (thenCase : Stmt)
  | Seq (a b : Stmt)
deriving DecidableEq, Repr

/-- Evaluation of expressions over an integer environment.  Loads have no
    memory semantics here; only index arithmetic is evaluated (they return
    0), which suffices for the loop-bound and phase arithmetic claims. -/
def evalE (env : Nat → Int) : Expr → Int
  | .IntImm v => v
  | .StringImm _ => 0
  | .Var v => env v
  | .Add a b => evalE env a + evalE env b
  | .Sub a b => evalE env a - evalE env b
  | .Mul a b => evalE env a * evalE env b
  | .Div a b => Int.tdiv (evalE env a) (evalE env b)
  | .Mod a b => Int.emod (evalE env a) (evalE env b)
  | .LT a b => if evalE env a < evalE env b then 1 else 0
  | .Load _ _ _ => 0

/-- Simultaneous substitution of variables by expressions, the model of the
    external Substitute utility.  As in the source, only value occurrences
    (Var nodes reached by the expression mutator) are replaced; the buffer
    handle slots of Load / Store / Allocate are not visited. -/
def substE (m : Nat → Option Expr) : Expr → Expr
  | .IntImm v => .IntImm v
  | .StringImm s => .StringImm s
  | .Var v =>
      match m v with
      | some e => e
      | none => .Var v
  | .Add a b => .Add (substE m a) (substE m b)
  | .Sub a b => .Sub (substE m a) (substE m b)
  | .Mul a b => .Mul (substE m a) (substE m b)
  | .Div a b => .Div (substE m a) (substE m b)
  | .Mod a b => .Mod (substE m a) (substE m b)
  | .LT a b => .LT (substE m a) (substE m b)
  | .Load buf idx pred => .Load buf (substE m idx) (substE m pred)

/-- Statement-level substitution (see substE). -/
def substS (m : Nat → Option Expr) : Stmt → Stmt
  | .Evaluate e => .Evaluate (substE m e)
  | .Store buf val idx pred => .Store buf (substE m val) (substE m idx) (substE m pred)
  | .Allocate buf lanes extents cond body =>
      .Allocate buf lanes (extents.map (substE m)) (substE m cond) (substS m body)
  | .AttrStmt n k v b => .AttrStmt n k (substE m v) (substS m b)
  | .For lv mn ex b => .For lv (substE m mn) (substE m ex) (substS m b)
  | .IfThenElse c t => .IfThenElse (substE m c) (substS m t)
  | .Seq a b => .Seq (substS m a) (substS m b)

/-- StripDoubleBufferWrite: deletes every double_buffer_write attribute
    wrapper, replacing it by its (recursively stripped) body.  It is a
    statement mutator only: expressions are left untouched, exactly as the
    StmtMutator base class does in the source. -/
def stripS : Stmt → Stmt
  | .Evaluate e => .Evaluate e
  | .Store buf val idx pred => .Store buf val idx pred
  | .Allocate buf lanes extents cond body => .Allocate buf lanes extents cond (stripS body)
  | .AttrStmt n k v b =>
      if k = AttrKey.double_buffer_write then stripS b
      else .AttrStmt n k v (stripS b)
  | .For lv mn ex b => .For lv mn ex (stripS b)
  | .IfThenElse c t => .IfThenElse c (stripS t)
  | .Seq a b => .Seq (stripS a) (stripS b)

/-- Whether a double_buffer_write marker occurs anywhere in a statement. -/
def hasDbw : Stmt → Bool
  | .Evaluate _ => false
  | .Store _ _ _ _ => false
  | .Allocate _ _ _ _ body => hasDbw body
  | .AttrStmt _ k _ b => decide (k = AttrKey.double_buffer_write) || hasDbw b
  | .For _ _ _ b => hasDbw b
  | .IfThenElse _ t => hasDbw t
  | .Seq a b => hasDbw a || hasDbw b

/-- Whether an AttrStmt with key double_buffer_scope whose node is v occurs
    anywhere in a statement. -/
def hasAnnotOf (v : Nat) : Stmt → Bool
  | .Evaluate _ => false
  | .Store _ _ _ _ => false
  | .Allocate _ _ _ _ body => hasAnnotOf v body
  | .AttrStmt n k _ b =>
      (decide (k = AttrKey.double_buffer_scope) && decide (n = v)) || hasAnnotOf v b
  | .For _ _ _ b => hasAnnotOf v b
  | .IfThenElse _ t => hasAnnotOf v t
  | .Seq a b => hasAnnotOf v a || hasAnnotOf v b

/-- Whether any double_buffer_scope attribute occurs anywhere in a
    statement. -/
def hasAnyAnnot : Stmt → Bool
  | .Evaluate _ => false
  | .Store _ _ _ _ => false
  | .Allocate _ _ _ _ body => hasAnyAnnot body
  | .AttrStmt _ k _ b => decide (k = AttrKey.double_buffer_scope) || hasAnyAnnot b
  | .For _ _ _ b => hasAnyAnnot b
  | .IfThenElse _ t => hasAnyAnnot t
  | .Seq a b => hasAnyAnnot a || hasAnyAnnot b

/-- Model of SeqStmt flatten (external utility): compose an ordered list
    of statements into one statement. -/
def seqOf : List Stmt → Stmt
  | [] => .Evaluate (.IntImm 0)
  | [s] => s
  | s :: rest => .Seq s (seqOf rest)

/-- Model of arith ComputeReduce with the Mul combiner: fold the extent
    list into one product expression, left associated as in the source. -/
def computeReduceMul : List Expr → Expr
  | [] => .IntImm 1
  | e :: rest => rest.foldl .Mul e

/-- Model of MergeNest (external utility): wrap a statement in a list of
    nesting statements, replacing the body slot of each.  The injector only
    ever stores AttrStmt and Allocate nests (the source aborts on other
    kinds). -/
def mergeNest : List Stmt → Stmt → Stmt
  | [], inner => inner
  | .AttrStmt n k v _ :: rest, inner => .AttrStmt n k v (mergeNest rest inner)
  | .Allocate b l e c _ :: rest, inner => .Allocate b l e c (mergeNest rest inner)
  | _ :: rest, inner => mergeNest rest inner

/-- Modelled from the spec: the external ConvertSSA renormalization utility
    applied after the injector, which assigns fresh identities to duplicate
    bindings without changing the structure relevant to any claim here; it
    is treated as the identity at this granularity. -/
def convertSSA (s : Stmt) : Stmt := s

/- ===== DoubleBufferDetector ===== -/

/-- Detector step over an expression, in source visitation order: a Var
    value occurrence erases its id from the candidate set; buffer handle
    slots of Load are not visited. -/
def detE (s : Finset Nat) : Expr → Finset Nat
  | .IntImm _ => s
  | .StringImm _ => s
  | .Var v => s.erase v
  | .Add a b => detE (detE s a) b
  | .Sub a b => detE (detE s a) b
  | .Mul a b => detE (detE s a) b
  | .Div a b => detE (detE s a) b
  | .Mod a b => detE (detE s a) b
  | .LT a b => detE (detE s a) b
  | .Load _ idx pred => detE (detE s idx) pred

/-- Detector step over a list of expressions, in order. -/
def detEs (s : Finset Nat) : List Expr → Finset Nat
  | [] => s
  | e :: rest => detEs (detE s e) rest

/-- Detector step over a statement: a double_buffer_scope attribute first
    inserts its node, then the default visitor descends into value and
    body; all other nodes just descend in field order. -/
def detS (s : Finset Nat) : Stmt → Finset Nat
  | .Evaluate e => detE s e
  | .Store _ val idx pred => detE (detE (detE s val) idx) pred
  | .Allocate _ _ extents cond body => detS (detE (detEs s extents) cond) body
  | .AttrStmt n k v b =>
      if k = AttrKey.double_buffer_scope then detS (detE (insert n s) v) b
      else detS (detE s v) b
  | .For _ mn ex b => detS (detE (detE s mn) ex) b
  | .IfThenElse c t => detS (detE s c) t
  | .Seq a b => detS (detS s a) b

/- ===== DoubleBufferInjector state ===== -/

/-- The data of a For node recorded on the loop stack (the source stores
    the For pointer; the fields the pass reads are its loop variable, min
    and extent). -/
structure LoopRec where
  loopVar : Nat
  min : Expr
  extent : Expr
deriving DecidableEq, Repr

/-- StorageEntry of the injector, one per candidate buffer. -/
structure StorageEntry where
  stride : Option Expr
  loop : Option LoopRec
  switch_write_var : Option Nat
  switch_read_var : Option Expr
  scope : String
deriving DecidableEq, Repr

/-- Entry as default-initialized by Inject for each detected candidate. -/
def emptyEntry : StorageEntry :=
  { stride := none, loop := none, switch_write_var := none,
    switch_read_var := none, scope := "" }

/-- Pointwise update of a table modelled as a function. -/
def updFun {α : Type} (f : Nat → α) (k : Nat) (v : α) : Nat → α :=
  fun n => if n = k then v else f n

/-- Traversal state of the injector: the per-buffer storage table, the
    enclosing-loop stack (innermost last), the pending prologue and hoisted
    allocation tables keyed by loop variable id, the inside-scope flag, the
    split factor, and the fresh-variable counter. -/
structure InjState where
  split_loop : Int
  dbuffer_info : Nat → Option StorageEntry
  loop_nest : List LoopRec
  loop_allocs : Nat → List Stmt
  loop_pre : Nat → List Stmt
  in_dbs : Bool
  fresh : Nat

def bareVarMsg : String := "bare reference to a double buffer variable"
def dbScopeLoopMsg : String := "Double buffer scope must be inside a loop"
def splitFactorMsg : String := "It is better to split with multiple of 2"
def loopMinMsg : String := "split loop requires a zero loop min"
def storeScopeMsg : String := "store outside double buffer scope"
def strideMsg : String := "stride not defined"
def readVarMsg : String := "switch read var not defined"
def writeVarMsg : String := "switch write var not defined"
def allocLoopMsg : String := "loop of double buffer not set"
def scopeValueMsg : String := "storage scope value is not a string"

/-- Expression mutator of the injector.  A bare Var occurrence of a tracked
    buffer is fatal; a Load from a tracked buffer requires stride and
    switch_read_var resolved and has its index rewritten to
    read_phase * stride + original_index.  The state is read, never
    written, by expression visits. -/
def visitExpr (st : InjState) : Expr → Except String Expr
  | .IntImm v => .ok (.IntImm v)
  | .StringImm s => .ok (.StringImm s)
  | .Var v =>
      match st.dbuffer_info v with
      | some _ => .error bareVarMsg
      | none => .ok (.Var v)
  | .Add a b => do
      let a2 ← visitExpr st a
      let b2 ← visitExpr st b
      .ok (.Add a2 b2)
  | .Sub a b => do
      let a2 ← visitExpr st a
      let b2 ← visitExpr st b
      .ok (.Sub a2 b2)
  | .Mul a b => do
      let a2 ← visitExpr st a
      let b2 ← visitExpr st b
      .ok (.Mul a2 b2)
  | .Div a b => do
      let a2 ← visitExpr st a
      let b2 ← visitExpr st b
      .ok (.Div a2 b2)
  | .Mod a b => do
      let a2 ← visitExpr st a
      let b2 ← visitExpr st b
      .ok (.Mod a2 b2)
  | .LT a b => do
      let a2 ← visitExpr st a
      let b2 ← visitExpr st b
      .ok (.LT a2 b2)
  | .Load buf idx pred => do
      let idx2 ← visitExpr st idx
      let pred2 ← visitExpr st pred
      match st.dbuffer_info buf with
      | some e =>
          match e.stride with
          | none => .error strideMsg
          | some s =>
              match e.switch_read_var with
              | none => .error readVarMsg
              | some rv => .ok (.Load buf (.Add (.Mul rv s) idx2) pred2)
      | none => .ok (.Load buf idx2 pred2)

/-- Injector visit of a list of expressions, in order. -/
def visitExprList (st : InjState) : List Expr → Except String (List Expr)
  | [] => .ok []
  | e :: rest => do
      let e2 ← visitExpr st e
      let rest2 ← visitExprList st rest
      .ok (e2 :: rest2)

/-- Substitution map of the prologue construction in MakeProducer: both the
    loop variable and the switch write variable go to 0. -/
def prologueSub (loopVar wv : Nat) : Nat → Option Expr :=
  fun x =>
    if x = wv then some (.IntImm 0)
    else if x = loopVar then some (.IntImm 0)
    else none

/-- Substitution map of the steady-state construction in MakeProducer: the
    loop variable i goes to i+1 and the switch write variable goes to
    (i+1) mod 2. -/
def steadySub (loopVar wv : Nat) : Nat → Option Expr :=
  fun x =>
    if x = loopVar then some (.Add (.Var loopVar) (.IntImm 1))
    else if x = wv then some (.Mod (.Add (.Var loopVar) (.IntImm 1)) (.IntImm 2))
    else none

/-- State with which MakeProducer recurses into the scope body: the storage
    entry gets its associated loop, a fresh switch write variable and the
    read phase expression i mod 2; the inside-scope flag is raised and the
    fresh counter advanced. -/
def producerEntryState (st : InjState) (v : Nat) (e : StorageEntry) (L : LoopRec) : InjState :=
  { st with
    dbuffer_info := (updFun st.dbuffer_info v
      (some { e with
        loop := some L,
        switch_write_var := some st.fresh,
        switch_read_var := some (.Mod (.Var L.loopVar) (.IntImm 2)) })),
    in_dbs := true,
    fresh := st.fresh + 1 }

/-- Stride expression computed at a tracked allocation: the product of the
    declared extents times the lane count of the element type. -/
def allocStride (extents : List Expr) (lanes : Int) : Expr :=
  .Mul (computeReduceMul extents) (.IntImm lanes)

/-- State with which the Allocate visit descends into its children: the
    storage entry of the buffer gets its stride resolved first. -/
def allocEntryState (st : InjState) (buf : Nat) (e : StorageEntry)
    (extents : List Expr) (lanes : Int) : InjState :=
  { st with
    dbuffer_info := (updFun st.dbuffer_info buf
      (some { e with stride := some (allocStride extents lanes) })) }

/-- Outer extent expression of the explicit unroll: (extent - 1) / factor,
    exactly the expression tree the source builds. -/
def unrollOuterExt (extent : Expr) (k : Int) : Expr :=
  .Div (.Sub extent (.IntImm 1)) (.IntImm k)

/-- Index substituted into the j-th steady-state copy: outer * factor + j. -/
def unrollCopyIdx (outerId : Nat) (k j : Int) : Expr :=
  .Add (.Mul (.Var outerId) (.IntImm k)) (.IntImm j)

/-- Index substituted into the j-th tail conditional:
    (extent - 1) / factor * factor + j. -/
def unrollTailIdx (extent : Expr) (k j : Int) : Expr :=
  .Add (.Mul (unrollOuterExt extent k) (.IntImm k)) (.IntImm j)

/-- Guard of the j-th tail conditional: tail index < extent. -/
def unrollTailGuard (extent : Expr) (k j : Int) : Expr :=
  .LT (unrollTailIdx extent k j) extent

/-- State with the loop record pushed onto the enclosing-loop stack
    (innermost last), as the For visit does before descending. -/
def pushLoop (st : InjState) (lv : Nat) (mn ex : Expr) : InjState :=
  { st with loop_nest := st.loop_nest ++ [LoopRec.mk lv mn ex] }

/-- Statement mutator of the injector, the direct embedding of
    DoubleBufferInjector::VisitStmt_ and MakeProducer.  Returns the
    rewritten statement together with the updated traversal state, or an
    error on any fatal CHECK. -/
def visitStmt (st : InjState) : Stmt → Except String (Stmt × InjState)
  | .Evaluate e => do
      let e2 ← visitExpr st e
      .ok (.Evaluate e2, st)
  | .Store buf val idx pred => do
      let val2 ← visitExpr st val
      let idx2 ← visitExpr st idx
      let pred2 ← visitExpr st pred
      match st.dbuffer_info buf with
      | some e =>
          if st.in_dbs then
            match e.stride with
            | some s =>
                match e.switch_write_var with
                | some w => .ok (.Store buf val2 (.Add (.Mul (.Var w) s) idx2) pred2, st)
                | none => .error writeVarMsg
            | none => .error strideMsg
          else .error storeScopeMsg
      | none => .ok (.Store buf val2 idx2 pred2, st)
  | .Allocate buf lanes extents cond body =>
      match st.dbuffer_info buf with
      | some e => do
          let st1 := allocEntryState st buf e extents lanes
          let extents2 ← visitExprList st1 extents
          let cond2 ← visitExpr st1 cond
          let (body2, st2) ← visitStmt st1 body
          match st2.dbuffer_info buf with
          | some e2 =>
              match e2.loop with
              | some L =>
                  let nest :=
                    [Stmt.AttrStmt buf AttrKey.storage_scope (.StringImm e2.scope)
                       (.Evaluate (.IntImm 0)),
                     Stmt.Allocate buf lanes (.IntImm 2 :: extents2) cond2
                       (.Evaluate (.IntImm 0))]
                  .ok (body2,
                       { st2 with loop_allocs := (updFun st2.loop_allocs L.loopVar
                           (st2.loop_allocs L.loopVar ++ nest)) })
              | none => .error allocLoopMsg
          | none => .error allocLoopMsg
      | none => do
          let extents2 ← visitExprList st extents
          let cond2 ← visitExpr st cond
          let (body2, st2) ← visitStmt st body
          .ok (.Allocate buf lanes extents2 cond2 body2, st2)
  | .AttrStmt node key val body =>
      if key = AttrKey.storage_scope then
        match st.dbuffer_info node with
        | some e =>
            match val with
            | .StringImm sc =>
                visitStmt
                  { st with dbuffer_info := (updFun st.dbuffer_info node
                      (some { e with scope := sc })) } body
            | _ => .error scopeValueMsg
        | none => do
            let val2 ← visitExpr st val
            let (body2, st2) ← visitStmt st body
            .ok (.AttrStmt node key val2 body2, st2)
      else if key = AttrKey.double_buffer_scope then
        match st.loop_nest.getLast? with
        | none => .error dbScopeLoopMsg
        | some L =>
            match st.dbuffer_info node with
            | none =>
                -- warning in the source; the body is passed to the ordinary
                -- traversal with no producer rewrite for this buffer
                visitStmt st body
            | some e => do
                let (body2, st2) ← visitStmt (producerEntryState st node e L) body
                let prologue := substS (prologueSub L.loopVar st.fresh) body2
                let steady := substS (steadySub L.loopVar st.fresh) body2
                .ok (.IfThenElse (.LT (.Add (.Var L.loopVar) (.IntImm 1)) L.extent)
                       (.AttrStmt node AttrKey.double_buffer_write (.IntImm 1) steady),
                     { st2 with
                       in_dbs := false,
                       loop_pre := (updFun st2.loop_pre L.loopVar
                         (st2.loop_pre L.loopVar ++ [prologue])) })
      else do
        let val2 ← visitExpr st val
        let (body2, st2) ← visitStmt st body
        .ok (.AttrStmt node key val2 body2, st2)
  | .For lv mn ex body => do
      let st1 := pushLoop st lv mn ex
      let mn2 ← visitExpr st1 mn
      let ex2 ← visitExpr st1 ex
      let (body2, st2) ← visitStmt st1 body
      let pres := st2.loop_pre lv
      let afterSplit : Except String (Stmt × Nat) :=
        if pres.isEmpty then .ok (.For lv mn2 ex2 body2, st2.fresh)
        else
          if st.split_loop ≠ 0 then
            if ¬ (st.split_loop % 2 = 0 ∨ st.split_loop = 1) then .error splitFactorMsg
            else if mn2 ≠ Expr.IntImm 0 then .error loopMinMsg
            else
              let k := st.split_loop
              let outerId := st2.fresh
              let copies := (List.range k.toNat).map (fun j =>
                substS (fun x => if x = lv then some (unrollCopyIdx outerId k (Int.ofNat j)) else none) body2)
              let steadyLoop := Stmt.For outerId mn2 (unrollOuterExt ex2 k) (seqOf copies)
              let tailBody := stripS body2
              let tails := (List.range k.toNat).map (fun j =>
                Stmt.IfThenElse (unrollTailGuard ex2 k (Int.ofNat j))
                  (substS (fun x => if x = lv then some (unrollTailIdx ex2 k (Int.ofNat j)) else none) tailBody))
              .ok (seqOf (steadyLoop :: tails), st2.fresh + 1)
          else .ok (.For lv mn2 ex2 body2, st2.fresh)
      match afterSplit with
      | .error msg => .error msg
      | .ok (stmtA, fr) =>
          let stmtB := if pres.isEmpty then stmtA else seqOf (pres ++ [stmtA])
          let allocs := st2.loop_allocs lv
          let stmtC := if allocs.isEmpty then stmtB else mergeNest allocs stmtB
          .ok (stmtC, { st2 with fresh := fr, loop_nest := st2.loop_nest.dropLast })
  | .IfThenElse c t => do
      let c2 ← visitExpr st c
      let (t2, st2) ← visitStmt st t
      .ok (.IfThenElse c2 t2, st2)
  | .Seq a b => do
      let (a2, st2) ← visitStmt st a
      let (b2, st3) ← visitStmt st2 b
      .ok (.Seq a2 b2, st3)

/-- Initial injector state built by Inject: every detected candidate gets a
    default storage entry.  The fresh counter starts above the ids used by
    the concrete example trees. -/
def initState (split : Int) (touched : Finset Nat) : InjState :=
  { split_loop := split,
    dbuffer_info := fun v => if v ∈ touched then some emptyEntry else none,
    loop_nest := [],
    loop_allocs := fun _ => [],
    loop_pre := fun _ => [],
    in_dbs := false,
    fresh := 1000 }

/-- Entry point InjectDoubleBuffer / DoubleBufferInjector::Inject: run the
    detector; when no candidate is found, return the tree unchanged;
    otherwise run the injector and ConvertSSA. -/
def inject (split : Int) (tree : Stmt) : Except String Stmt :=
  let touched := detS ∅ tree
  if touched = ∅ then .ok tree
  else (visitStmt (initState split touched) tree).map (fun p => convertSSA p.1)

/- ===== Example tree (the concrete scenario of the spec) ===== -/

def sharedStr : String := "shared"

/-- Scenario tree: loop i in zero..n (loop variable id 0), buffer id 1 of
    extent 16, a storage scope attribute wrapping its allocation, a double
    buffer scope producing into it, and a consumer load after it. -/
def exTree (n : Int) : Stmt :=
  .For 0 (.IntImm 0) (.IntImm n)
    (.AttrStmt 1 AttrKey.storage_scope (.StringImm sharedStr)
      (.Allocate 1 1 [.IntImm 16] (.IntImm 1)
        (.Seq
          (.AttrStmt 1 AttrKey.double_buffer_scope (.IntImm 1)
            (.Store 1 (.IntImm 7) (.Var 0) (.IntImm 1)))
          (.Evaluate (.Load 1 (.Var 0) (.IntImm 1))))))

/- ===== Index coverage of the explicit unroll ===== -/

/-- Environment with all variables 0. -/
def env0 : Nat → Int := fun _ => 0

/-- Environment with the outer split variable (id 0 here) set to o. -/
def envOuter (o : Int) : Nat → Int := fun v => if v = 0 then o else 0

/-- An index value x is covered by the steady-state outer loop: some outer
    iteration o below the evaluated outer extent and some copy j below the
    factor substitute an index expression evaluating to x. -/
def steadyCovers (N k x : Int) : Prop :=
  ∃ o j : Int,
    0 ≤ o ∧ o < evalE env0 (unrollOuterExt (.IntImm N) k) ∧
    0 ≤ j ∧ j < k ∧
    x = evalE (envOuter o) (unrollCopyIdx 0 k j)

/-- An index value x is covered by a tail conditional: some copy j below
    the factor whose guard evaluates to true has its tail index expression
    evaluating to x. -/
def tailCovers (N k x : Int) : Prop :=
  ∃ j : Int,
    0 ≤ j ∧ j < k ∧
    evalE env0 (unrollTailGuard (.IntImm N) k j) = 1 ∧
    x = evalE env0 (unrollTailIdx (.IntImm N) k j)

/- ===== Detector lemmas ===== -/

lemma mem_detE {v : Nat} (e : Expr) : ∀ s : Finset Nat, v ∈ detE s e → v ∈ s := by
  induction e with
  | IntImm w => intro s h; simpa [detE] using h
  | StringImm w => intro s h; simpa [detE] using h
  | Var w => intro s h; exact Finset.mem_of_mem_erase h
  | Add a b iha ihb => intro s h; exact iha _ (ihb _ h)
  | Sub a b iha ihb => intro s h; exact iha _ (ihb _ h)
  | Mul a b iha ihb => intro s h; exact iha _ (ihb _ h)
  | Div a b iha ihb => intro s h; exact iha _ (ihb _ h)
  | Mod a b iha ihb => intro s h; exact iha _ (ihb _ h)
  | LT a b iha ihb => intro s h; exact iha _ (ihb _ h)
  | Load buf idx pred ihi ihp => intro s h; exact ihi _ (ihp _ h)

lemma mem_detEs {v : Nat} (es : List Expr) : ∀ s : Finset Nat, v ∈ detEs s es → v ∈ s := by
  induction es with
  | nil => intro s h; simpa [detEs] using h
  | cons e rest ih => intro s h; exact mem_detE e _ (ih _ h)

lemma mem_detS {v : Nat} (t : Stmt) :
    ∀ s : Finset Nat, hasAnnotOf v t = false → v ∈ detS s t → v ∈ s := by
  induction t with
  | Evaluate e => intro s _ h; exact mem_detE e s h
  | Store b val idx pred => intro s _ h
                            exact mem_detE _ _ (mem_detE _ _ (mem_detE _ _ h))
  | Allocate b l extents cond body ih =>
      intro s hn h
      simp only [hasAnnotOf] at hn
      exact mem_detEs _ _ (mem_detE _ _ (ih _ hn h))
  | AttrStmt n k val b ih =>
      intro s hn h
      simp only [hasAnnotOf, Bool.or_eq_false_iff, Bool.and_eq_false_iff,
        decide_eq_false_iff_not] at hn
      by_cases hk : k = AttrKey.double_buffer_scope
      · subst hk
        simp only [detS, if_pos rfl] at h
        have h2 : v ∈ insert n s := mem_detE _ _ (ih _ hn.2 h)
        rcases Finset.mem_insert.mp h2 with h3 | h3
        · rcases hn.1 with h4 | h4
          · exact absurd rfl h4
          · exact absurd h3.symm h4
        · exact h3
      · simp only [detS, if_neg hk] at h
        exact mem_detE _ _ (ih _ hn.2 h)
  | For lv mn ex b ih =>
      intro s hn h
      simp only [hasAnnotOf] at hn
      exact mem_detE _ _ (mem_detE _ _ (ih _ hn h))
  | IfThenElse c t ih =>
      intro s hn h
      simp only [hasAnnotOf] at hn
      exact mem_detE _ _ (ih _ hn h)
  | Seq a b iha ihb =>
      intro s hn h
      simp only [hasAnnotOf, Bool.or_eq_false_iff] at hn
      exact iha _ hn.1 (ihb _ hn.2 h)

lemma detE_mem_congr {v : Nat} (e : Expr) :
    ∀ s₁ s₂ : Finset Nat, (v ∈ s₁ ↔ v ∈ s₂) → (v ∈ detE s₁ e ↔ v ∈ detE s₂ e) := by
  induction e with
  | IntImm w => intro s₁ s₂ h; simpa [detE] using h
  | StringImm w => intro s₁ s₂ h; simpa [detE] using h
  | Var w => intro s₁ s₂ h; simp [detE, Finset.mem_erase, h]
  | Add a b iha ihb => intro s₁ s₂ h; exact ihb _ _ (iha _ _ h)
  | Sub a b iha ihb => intro s₁ s₂ h; exact ihb _ _ (iha _ _ h)
  | Mul a b iha ihb => intro s₁ s₂ h; exact ihb _ _ (iha _ _ h)
  | Div a b iha ihb => intro s₁ s₂ h; exact ihb _ _ (iha _ _ h)
  | Mod a b iha ihb => intro s₁ s₂ h; exact ihb _ _ (iha _ _ h)
  | LT a b iha ihb => intro s₁ s₂ h; exact ihb _ _ (iha _ _ h)
  | Load buf idx pred ihi ihp => intro s₁ s₂ h; exact ihp _ _ (ihi _ _ h)

lemma detEs_mem_congr {v : Nat} (es : List Expr) :
    ∀ s₁ s₂ : Finset Nat, (v ∈ s₁ ↔ v ∈ s₂) → (v ∈ detEs s₁ es ↔ v ∈ detEs s₂ es) := by
  induction es with
  | nil => intro s₁ s₂ h; simpa [detEs] using h
  | cons e rest ih => intro s₁ s₂ h; exact ih _ _ (detE_mem_congr e _ _ h)

lemma detS_mem_congr {v : Nat} (t : Stmt) :
    ∀ s₁ s₂ : Finset Nat, (v ∈ s₁ ↔ v ∈ s₂) → (v ∈ detS s₁ t ↔ v ∈ detS s₂ t) := by
  induction t with
  | Evaluate e => intro s₁ s₂ h; exact detE_mem_congr e _ _ h
  | Store b val idx pred =>
      intro s₁ s₂ h
      exact detE_mem_congr _ _ _ (detE_mem_congr _ _ _ (detE_mem_congr _ _ _ h))
  | Allocate b l extents cond body ih =>
      intro s₁ s₂ h
      exact ih _ _ (detE_mem_congr _ _ _ (detEs_mem_congr _ _ _ h))
  | AttrStmt n k val b ih =>
      intro s₁ s₂ h
      by_cases hk : k = AttrKey.double_buffer_scope
      · subst hk
        simp only [detS, if_pos rfl]
        refine ih _ _ (detE_mem_congr _ _ _ ?_)
        simp [Finset.mem_insert, h]
      · simp only [detS, if_neg hk]
        exact ih _ _ (detE_mem_congr _ _ _ h)
  | For lv mn ex b ih =>
      intro s₁ s₂ h
      exact ih _ _ (detE_mem_congr _ _ _ (detE_mem_congr _ _ _ h))
  | IfThenElse c t ih =>
      intro s₁ s₂ h
      exact ih _ _ (detE_mem_congr _ _ _ h)
  | Seq a b iha ihb =>
      intro s₁ s₂ h
      exact ihb _ _ (iha _ _ h)

lemma hasAnnotOf_false_of_none {v : Nat} (t : Stmt) (h : hasAnyAnnot t = false) :
    hasAnnotOf v t = false := by
  induction t with
  | Evaluate e => rfl
  | Store b val idx pred => rfl
  | Allocate b l extents cond body ih =>
      simp only [hasAnyAnnot] at h
      simpa only [hasAnnotOf] using ih h
  | AttrStmt n k val b ih =>
      simp only [hasAnyAnnot, Bool.or_eq_false_iff, decide_eq_false_iff_not] at h
      simp only [hasAnnotOf, Bool.or_eq_false_iff, Bool.and_eq_false_iff,
        decide_eq_false_iff_not]
      exact ⟨Or.inl h.1, ih h.2⟩
  | For lv mn ex b ih =>
      simp only [hasAnyAnnot] at h
      simpa only [hasAnnotOf] using ih h
  | IfThenElse c t ih =>
      simp only [hasAnyAnnot] at h
      simpa only [hasAnnotOf] using ih h
  | Seq a b iha ihb =>
      simp only [hasAnyAnnot, Bool.or_eq_false_iff] at h
      simp only [hasAnnotOf, Bool.or_eq_false_iff]
      exact ⟨iha h.1, ihb h.2⟩

/- ===== Strip lemmas ===== -/

lemma strip_no_dbw (s : Stmt) : hasDbw (stripS s) = false := by
  induction s with
  | Evaluate e => rfl
  | Store b val idx pred => rfl
  | Allocate b l extents cond body ih => simpa [stripS, hasDbw] using ih
  | AttrStmt n k val b ih =>
      by_cases hk : k = AttrKey.double_buffer_write
      · simpa [stripS, if_pos hk] using ih
      · simp [stripS, if_neg hk, hasDbw, hk, ih]
  | For lv mn ex b ih => simpa [stripS, hasDbw] using ih
  | IfThenElse c t ih => simpa [stripS, hasDbw] using ih
  | Seq a b iha ihb => simp [stripS, hasDbw, iha, ihb]

lemma strip_id_of_no_dbw (s : Stmt) (h : hasDbw s = false) : stripS s = s := by
  induction s with
  | Evaluate e => rfl
  | Store b val idx pred => rfl
  | Allocate b l extents cond body ih =>
      simp only [hasDbw] at h
      simp [stripS, ih h]
  | AttrStmt n k val b ih =>
      simp only [hasDbw, Bool.or_eq_false_iff, decide_eq_false_iff_not] at h
      simp [stripS, if_neg h.1, ih h.2]
  | For lv mn ex b ih =>
      simp only [hasDbw] at h
      simp [stripS, ih h]
  | IfThenElse c t ih =>
      simp only [hasDbw] at h
      simp [stripS, ih h]
  | Seq a b iha ihb =>
      simp only [hasDbw, Bool.or_eq_false_iff] at h
      simp [stripS, iha h.1, ihb h.2]

/- ===== Claim theorems ===== -/

/-- C6: for every input tree containing zero double-buffer scope
    annotations, the output of inject is structurally identical to the
    input tree, for every unroll factor. -/
theorem claimC6_inject_noop (t : Stmt) (h : hasAnyAnnot t = false) (k : Int) :
    inject k t = .ok t := by
  have hd : detS ∅ t = ∅ := by
    refine Finset.eq_empty_iff_forall_not_mem.mpr (fun v hv => ?_)
    have := mem_detS (v := v) t ∅ (hasAnnotOf_false_of_none t h) hv
    simp at this
  simp [inject, hd]

theorem claimC6_witness : inject 7 (.Evaluate (.Var 5)) = .ok (.Evaluate (.Var 5)) :=
  claimC6_inject_noop (.Evaluate (.Var 5)) (by rfl) 7

/-- C7: the Write-Strip Rewriter replaces every prefetch-write marker
    wrapper by that wrapper's body, alters no statement that carries no
    marker, and leaves no marker anywhere in its result. -/
theorem claimC7_strip_spec :
    (∀ (n : Nat) (v : Expr) (b : Stmt),
       stripS (.AttrStmt n AttrKey.double_buffer_write v b) = stripS b)
    ∧ (∀ s : Stmt, hasDbw (stripS s) = false)
    ∧ (∀ s : Stmt, hasDbw s = false → stripS s = s) := by
  refine ⟨fun n v b => ?_, strip_no_dbw, strip_id_of_no_dbw⟩
  simp [stripS]

theorem claimC7_witness :
    stripS (.Seq (.Evaluate (.IntImm 3)) (.Evaluate (.IntImm 4)))
      = .Seq (.Evaluate (.IntImm 3)) (.Evaluate (.IntImm 4)) :=
  claimC7_strip_spec.2.2 _ (by rfl)

/-- C10: the candidate-removal rule of the Detector is order sensitive: a
    bare value reference occurring in a prefix r that contains no
    double-buffer scope annotation of v (hence is visited strictly before
    the first annotation of v) does not affect whether v survives in the
    candidate set after the rest a of the tree is visited, and visiting
    Seq r a is exactly the composition of the two visits. -/
theorem claimC10_detector_order (v : Nat) (s : Finset Nat) (r a : Stmt)
    (hv : v ∉ s) (hr : hasAnnotOf v r = false) :
    (v ∈ detS (detS s r) a ↔ v ∈ detS s a) ∧ detS s (.Seq r a) = detS (detS s r) a := by
  refine ⟨?_, rfl⟩
  refine detS_mem_congr a _ _ ?_
  exact iff_of_false (fun h => hv (mem_detS r s hr h)) hv

theorem claimC10_witness :
    0 ∈ detS (detS ∅ (.Evaluate (.Var 0)))
          (.AttrStmt 0 AttrKey.double_buffer_scope (.IntImm 1) (.Evaluate (.IntImm 0))) := by
  have h := claimC10_detector_order 0 ∅ (.Evaluate (.Var 0))
    (.AttrStmt 0 AttrKey.double_buffer_scope (.IntImm 1) (.Evaluate (.IntImm 0)))
    (by simp) (by rfl)
  exact h.1.mpr (by decide)

/- ===== Witness support: small concrete states ===== -/

/-- A concrete enclosing loop with loop variable 0 and extent 4. -/
def oneLoop : LoopRec := { loopVar := 0, min := .IntImm 0, extent := .IntImm 4 }

/-- A state with one enclosing loop and no tracked buffer. -/
def stWithLoop : InjState := { initState 0 ∅ with loop_nest := [oneLoop] }

/-- A state with one enclosing loop and buffer 1 tracked (default entry). -/
def stTracked : InjState := { initState 0 {1} with loop_nest := [oneLoop] }

/-- A storage entry whose associated loop is already set. -/
def entryWithLoop : StorageEntry := { emptyEntry with loop := some oneLoop }

/-- A state tracking buffer 1 with its loop already associated. -/
def stTrackedLoop : InjState :=
  { initState 0 ∅ with
    loop_nest := [oneLoop],
    dbuffer_info := (updFun (fun _ => none) 1 (some entryWithLoop)) }

/-- A fully resolved storage entry for buffer 1: stride 16, write switch
    variable 50, read phase i mod 2. -/
def entryFull : StorageEntry :=
  { stride := some (.IntImm 16),
    loop := some oneLoop,
    switch_write_var := some 50,
    switch_read_var := some (.Mod (.Var 0) (.IntImm 2)),
    scope := sharedStr }

/-- A state inside a double-buffer scope with buffer 1 fully resolved. -/
def stFull : InjState :=
  { initState 0 ∅ with
    loop_nest := [oneLoop],
    in_dbs := true,
    dbuffer_info := (updFun (fun _ => none) 1 (some entryFull)) }

/-- The state stFull with the inside-scope flag lowered. -/
def stFullOut : InjState := { stFull with in_dbs := false }

/- ===== C9: scope annotation with empty loop stack is fatal ===== -/

/-- C9: a double-buffer scope annotation encountered with an empty
    enclosing-loop stack aborts with the fatal loop error, before the
    candidate-set lookup, hence regardless of whether the buffer is
    tracked. -/
theorem claimC9_scope_needs_loop (st : InjState) (v : Nat) (val : Expr) (body : Stmt)
    (h : st.loop_nest = []) :
    visitStmt st (.AttrStmt v AttrKey.double_buffer_scope val body) = .error dbScopeLoopMsg := by
  simp [visitStmt, h]

theorem claimC9_witness :
    visitStmt (initState 0 {1}) (.AttrStmt 1 AttrKey.double_buffer_scope (.IntImm 1)
      (.Evaluate (.IntImm 0))) = .error dbScopeLoopMsg :=
  claimC9_scope_needs_loop (initState 0 {1}) 1 (.IntImm 1) (.Evaluate (.IntImm 0)) rfl

/- ===== C8: untracked scope annotation is non-fatal passthrough ===== -/

/-- C8: a double-buffer scope annotation naming a buffer absent from the
    tracked set, visited under a nonempty loop stack, does not abort: the
    node is replaced by its body rewritten by the ordinary traversal, with
    no producer rewrite applied. -/
theorem claimC8_untracked_passthrough (st : InjState) (v : Nat) (val : Expr) (body : Stmt)
    (ns : List LoopRec) (L : LoopRec)
    (hn : st.loop_nest = ns ++ [L]) (he : st.dbuffer_info v = none) :
    visitStmt st (.AttrStmt v AttrKey.double_buffer_scope val body) = visitStmt st body := by
  simp [visitStmt, hn, he, List.getLast?_concat]

theorem claimC8_witness :
    visitStmt stWithLoop (.AttrStmt 3 AttrKey.double_buffer_scope (.IntImm 1)
        (.Evaluate (.IntImm 0)))
      = visitStmt stWithLoop (.Evaluate (.IntImm 0)) :=
  claimC8_untracked_passthrough stWithLoop 3 (.IntImm 1) (.Evaluate (.IntImm 0))
    [] oneLoop rfl rfl

/- ===== C2: the producer rewrite ===== -/

/-- C2: visiting a double-buffer scope annotation on tracked buffer v under
    innermost loop L rewrites the scope body in the producer entry state,
    appends to the prologue table of L exactly that body with the loop
    variable and the write-phase variable substituted by 0, and replaces
    the node by the body with the loop variable substituted by i+1 and the
    write-phase variable by (i+1) mod 2, wrapped in the prefetch-write
    marker attribute, wrapped in a conditional whose guard evaluates to
    true exactly when i+1 < N. -/
theorem claimC2_producer_rewrite (st : InjState) (v : Nat) (val : Expr) (body : Stmt)
    (e : StorageEntry) (ns : List LoopRec) (L : LoopRec)
    (body2 : Stmt) (st2 : InjState)
    (hn : st.loop_nest = ns ++ [L]) (he : st.dbuffer_info v = some e)
    (hb : visitStmt (producerEntryState st v e L) body = .ok (body2, st2)) :
    visitStmt st (.AttrStmt v AttrKey.double_buffer_scope val body) =
      .ok (.IfThenElse (.LT (.Add (.Var L.loopVar) (.IntImm 1)) L.extent)
             (.AttrStmt v AttrKey.double_buffer_write (.IntImm 1)
               (substS (steadySub L.loopVar st.fresh) body2)),
           { st2 with
             in_dbs := false,
             loop_pre := (updFun st2.loop_pre L.loopVar
               (st2.loop_pre L.loopVar ++ [substS (prologueSub L.loopVar st.fresh) body2])) })
    ∧ (∀ env : Nat → Int,
         evalE env (.LT (.Add (.Var L.loopVar) (.IntImm 1)) L.extent) = 1
           ↔ env L.loopVar + 1 < evalE env L.extent) := by
  constructor
  · simp only [visitStmt, hn, he, List.getLast?_concat, hb]
    rfl
  · intro env
    by_cases hlt : env L.loopVar + 1 < evalE env L.extent <;> simp [evalE, hlt]

theorem claimC2_witness :
    (visitStmt stTracked (.AttrStmt 1 AttrKey.double_buffer_scope (.IntImm 1)
      (.Evaluate (.IntImm 0)))).toOption.isSome = true := by
  rw [(claimC2_producer_rewrite stTracked 1 (.IntImm 1) (.Evaluate (.IntImm 0))
    emptyEntry [] oneLoop (.Evaluate (.IntImm 0))
    (producerEntryState stTracked 1 emptyEntry oneLoop) rfl (by decide) rfl).1]
  rfl

/- ===== C3: load and store rewriting and their fatal conditions ===== -/

/-- C3: a store to a tracked buffer requires the traversal to be inside a
    double-buffer scope and the stride resolved (fatal otherwise) and has
    its index rewritten to write_phase_var * stride + original_index; a
    load from a tracked buffer requires stride and read-phase expression
    resolved (fatal otherwise) and has its index rewritten to
    read_phase_expr * stride + original_index; the read phase expression
    installed by the producer rewrite is i mod 2 and the steady-state
    write-phase substitute is (i+1) mod 2, and both evaluate only to 0 or
    1. -/
theorem claimC3_access_rewrite :
    (∀ (st : InjState) (buf : Nat) (val idx pred val2 idx2 pred2 : Expr)
       (e : StorageEntry) (s : Expr) (w : Nat),
       st.dbuffer_info buf = some e → st.in_dbs = true →
       e.stride = some s → e.switch_write_var = some w →
       visitExpr st val = .ok val2 → visitExpr st idx = .ok idx2 →
       visitExpr st pred = .ok pred2 →
       visitStmt st (.Store buf val idx pred)
         = .ok (.Store buf val2 (.Add (.Mul (.Var w) s) idx2) pred2, st))
    ∧ (∀ (st : InjState) (buf : Nat) (val idx pred val2 idx2 pred2 : Expr)
         (e : StorageEntry),
         st.dbuffer_info buf = some e → st.in_dbs = false →
         visitExpr st val = .ok val2 → visitExpr st idx = .ok idx2 →
         visitExpr st pred = .ok pred2 →
         visitStmt st (.Store buf val idx pred) = .error storeScopeMsg)
    ∧ (∀ (st : InjState) (buf : Nat) (val idx pred val2 idx2 pred2 : Expr)
         (e : StorageEntry),
         st.dbuffer_info buf = some e → st.in_dbs = true → e.stride = none →
         visitExpr st val = .ok val2 → visitExpr st idx = .ok idx2 →
         visitExpr st pred = .ok pred2 →
         visitStmt st (.Store buf val idx pred) = .error strideMsg)
    ∧ (∀ (st : InjState) (buf : Nat) (idx pred idx2 pred2 : Expr)
         (e : StorageEntry) (s rv : Expr),
         st.dbuffer_info buf = some e →
         e.stride = some s → e.switch_read_var = some rv →
         visitExpr st idx = .ok idx2 → visitExpr st pred = .ok pred2 →
         visitExpr st (.Load buf idx pred) = .ok (.Load buf (.Add (.Mul rv s) idx2) pred2))
    ∧ (∀ (st : InjState) (buf : Nat) (idx pred idx2 pred2 : Expr) (e : StorageEntry),
         st.dbuffer_info buf = some e → e.stride = none →
         visitExpr st idx = .ok idx2 → visitExpr st pred = .ok pred2 →
         visitExpr st (.Load buf idx pred) = .error strideMsg)
    ∧ (∀ (st : InjState) (buf : Nat) (idx pred idx2 pred2 : Expr)
         (e : StorageEntry) (s : Expr),
         st.dbuffer_info buf = some e → e.stride = some s → e.switch_read_var = none →
         visitExpr st idx = .ok idx2 → visitExpr st pred = .ok pred2 →
         visitExpr st (.Load buf idx pred) = .error readVarMsg)
    ∧ (∀ (st : InjState) (v : Nat) (e : StorageEntry) (L : LoopRec),
         ((producerEntryState st v e L).dbuffer_info v).map (fun x => x.switch_read_var)
           = some (some (.Mod (.Var L.loopVar) (.IntImm 2)))
         ∧ ∀ env : Nat → Int,
             evalE env (.Mod (.Var L.loopVar) (.IntImm 2)) = env L.loopVar % 2
             ∧ (env L.loopVar % 2 = 0 ∨ env L.loopVar % 2 = 1))
    ∧ (∀ (lv wv : Nat), lv ≠ wv →
         steadySub lv wv wv = some (.Mod (.Add (.Var lv) (.IntImm 1)) (.IntImm 2))
         ∧ ∀ env : Nat → Int,
             evalE env (.Mod (.Add (.Var lv) (.IntImm 1)) (.IntImm 2)) = (env lv + 1) % 2
             ∧ ((env lv + 1) % 2 = 0 ∨ (env lv + 1) % 2 = 1)) := by
  refine ⟨?_, ?_, ?_, ?_, ?_, ?_, ?_, ?_⟩
  · intro st buf val idx pred val2 idx2 pred2 e s w he hin hs hw hv hi hp
    simp only [visitStmt, hv, hi, hp, he, hin, hs, hw]
    rfl
  · intro st buf val idx pred val2 idx2 pred2 e he hin hv hi hp
    simp only [visitStmt, hv, hi, hp, he, hin]
    rfl
  · intro st buf val idx pred val2 idx2 pred2 e he hin hs hv hi hp
    simp only [visitStmt, hv, hi, hp, he, hin, hs]
    rfl
  · intro st buf idx pred idx2 pred2 e s rv he hs hr hi hp
    simp only [visitExpr, hi, hp, he, hs, hr]
    rfl
  · intro st buf idx pred idx2 pred2 e he hs hi hp
    simp only [visitExpr, hi, hp, he, hs]
    rfl
  · intro st buf idx pred idx2 pred2 e s he hs hr hi hp
    simp only [visitExpr, hi, hp, he, hs, hr]
    rfl
  · intro st v e L
    refine ⟨by simp [producerEntryState, updFun], fun env => ⟨rfl, ?_⟩⟩
    exact Int.emod_two_eq_zero_or_one (env L.loopVar)
  · intro lv wv hne
    refine ⟨by simp [steadySub, if_neg (Ne.symm hne)], fun env => ⟨rfl, ?_⟩⟩
    exact Int.emod_two_eq_zero_or_one (env lv + 1)

theorem claimC3_witness :
    visitStmt stFull (.Store 1 (.IntImm 7) (.Var 0) (.IntImm 1))
      = .ok (.Store 1 (.IntImm 7)
          (.Add (.Mul (.Var 50) (.IntImm 16)) (.Var 0)) (.IntImm 1), stFull) :=
  claimC3_access_rewrite.1 stFull 1 (.IntImm 7) (.Var 0) (.IntImm 1)
    (.IntImm 7) (.Var 0) (.IntImm 1) entryFull (.IntImm 16) 50
    rfl rfl rfl rfl rfl rfl rfl

/- ===== C4: allocation rewriting ===== -/

lemma exceptBindOk {α β : Type} (a : α) (f : α → Except String β) :
    (Except.ok a : Except String α) >>= f = f a := rfl

lemma evalE_foldl_mul (env : Nat → Int) (es : List Expr) :
    ∀ a : Expr, evalE env (es.foldl .Mul a) = evalE env a * (es.map (evalE env)).prod := by
  induction es with
  | nil => intro a; simp
  | cons e rest ih => intro a; simp [List.foldl, ih, evalE, mul_assoc]

/-- C4: visiting the allocation of a tracked buffer resolves its stride to
    the product of the declared extents times the lane count before
    descending, replaces the allocation node by its rewritten body, and
    appends to the hoisted-allocations table of the associated loop the
    storage-scope attribute followed by a widened allocation whose extent
    list has a leading 2 inserted; the widened product is exactly twice the
    original product. -/
theorem claimC4_allocate_rewrite (st : InjState) (buf : Nat) (lanes : Int)
    (extents : List Expr) (cond cond2 : Expr) (body body2 : Stmt)
    (e e2 : StorageEntry) (L : LoopRec) (st2 : InjState)
    (he : st.dbuffer_info buf = some e)
    (hx : visitExprList (allocEntryState st buf e extents lanes) extents = .ok extents)
    (hc : visitExpr (allocEntryState st buf e extents lanes) cond = .ok cond2)
    (hb : visitStmt (allocEntryState st buf e extents lanes) body = .ok (body2, st2))
    (he2 : st2.dbuffer_info buf = some e2)
    (hL : e2.loop = some L) :
    visitStmt st (.Allocate buf lanes extents cond body)
      = .ok (body2,
             { st2 with loop_allocs := (updFun st2.loop_allocs L.loopVar
                 (st2.loop_allocs L.loopVar ++
                   [.AttrStmt buf AttrKey.storage_scope (.StringImm e2.scope)
                      (.Evaluate (.IntImm 0)),
                    .Allocate buf lanes (.IntImm 2 :: extents) cond2
                      (.Evaluate (.IntImm 0))])) })
    ∧ (allocEntryState st buf e extents lanes).dbuffer_info buf
        = some { e with stride := some (.Mul (computeReduceMul extents) (.IntImm lanes)) }
    ∧ (∀ env : Nat → Int,
         evalE env (computeReduceMul (.IntImm 2 :: extents))
           = 2 * evalE env (computeReduceMul extents)) := by
  refine ⟨?_, ?_, ?_⟩
  · simp only [visitStmt, he, hx, hc, hb, exceptBindOk, he2, hL]
  · simp [allocEntryState, updFun, allocStride]
  · intro env
    cases extents with
    | nil => simp [computeReduceMul, evalE]
    | cons x xs => simp [computeReduceMul, evalE_foldl_mul, evalE, mul_assoc]

theorem claimC4_witness :
    (visitStmt stTrackedLoop (.Allocate 1 1 [.IntImm 16] (.IntImm 1)
      (.Evaluate (.IntImm 0)))).toOption.isSome = true := by
  rw [(claimC4_allocate_rewrite stTrackedLoop 1 1 [.IntImm 16] (.IntImm 1) (.IntImm 1)
    (.Evaluate (.IntImm 0)) (.Evaluate (.IntImm 0))
    entryWithLoop { entryWithLoop with stride := some (allocStride [.IntImm 16] 1) }
    oneLoop (allocEntryState stTrackedLoop 1 entryWithLoop [.IntImm 16] 1)
    (by decide) rfl rfl rfl (by decide) rfl).1]
  rfl

/- ===== C5: validation of the unroll factor ===== -/

/-- C5 (amended): an unroll factor that is neither 0 nor 1 nor even is
    fatal exactly when the rewrite reaches a For loop carrying a pending
    double-buffer prologue (a loop that contains a producer); in
    particular the whole pass aborts with the split-factor error on the
    scenario tree with factor 3. -/
theorem claimC5_odd_factor_fatal :
    (∀ (st : InjState) (lv : Nat) (mn ex : Expr) (body : Stmt)
       (mn2 ex2 : Expr) (body2 : Stmt) (st2 : InjState),
       ¬ (st.split_loop % 2 = 0 ∨ st.split_loop = 1) → st.split_loop ≠ 0 →
       visitExpr (pushLoop st lv mn ex) mn = .ok mn2 →
       visitExpr (pushLoop st lv mn ex) ex = .ok ex2 →
       visitStmt (pushLoop st lv mn ex) body = .ok (body2, st2) →
       (st2.loop_pre lv).isEmpty = false →
       visitStmt st (.For lv mn ex body) = .error splitFactorMsg)
    ∧ inject 3 (exTree 8) = .error splitFactorMsg := by
  constructor
  · intro st lv mn ex body mn2 ex2 body2 st2 hodd hnz hmn hex hb hpre
    have hcond : st.split_loop % 2 = 1 ∧ ¬ st.split_loop = 1 := by
      rcases Int.emod_two_eq_zero_or_one st.split_loop with h | h
      · exact absurd (Or.inl h) hodd
      · exact ⟨h, fun h1 => hodd (Or.inr h1)⟩
    simp only [visitStmt, hmn, hex, hb, exceptBindOk, hpre]
    simp [hnz, hcond.1, hcond.2]
  · rfl

/-- A state whose split factor is 3 and whose prologue table for loop
    variable 0 is already nonempty. -/
def stPre : InjState :=
  { initState 3 ∅ with loop_pre := (updFun (fun _ => []) 0 [.Evaluate (.IntImm 0)]) }

theorem claimC5_witness :
    visitStmt stPre (.For 0 (.IntImm 0) (.IntImm 4) (.Evaluate (.IntImm 0)))
      = .error splitFactorMsg :=
  claimC5_odd_factor_fatal.1 stPre 0 (.IntImm 0) (.IntImm 4) (.Evaluate (.IntImm 0))
    (.IntImm 0) (.IntImm 4) (.Evaluate (.IntImm 0))
    (pushLoop stPre 0 (.IntImm 0) (.IntImm 4))
    (by decide) (by decide) rfl rfl rfl rfl

/-- C5 counterexample: with unroll factor 3 and a tree containing no
    double-buffer annotation, the pass returns normally instead of
    aborting, so the factor precondition is not checked on every input
    tree. -/
theorem claimC5_counterexample :
    inject 3 (.Evaluate (.IntImm 0)) = .ok (.Evaluate (.IntImm 0)) := rfl

/- ===== C1: index coverage of the explicit unroll ===== -/

lemma ite_one_zero_eq_one (c : Prop) [Decidable c] :
    ((if c then (1 : Int) else 0) = 1) ↔ c := by
  by_cases h : c <;> simp [h]

lemma steadyCovers_iff (N k x : Int) (hN : 1 ≤ N) (hk : 0 < k) :
    steadyCovers N k x ↔
      ∃ o j : Int, 0 ≤ o ∧ o < (N - 1) / k ∧ 0 ≤ j ∧ j < k ∧ x = o * k + j := by
  have ht : Int.tdiv (N - 1) k = (N - 1) / k := Int.tdiv_eq_ediv (by omega) (by omega)
  simp [steadyCovers, evalE, unrollOuterExt, unrollCopyIdx, envOuter, env0, ht]

lemma tailCovers_iff (N k x : Int) (hN : 1 ≤ N) (hk : 0 < k) :
    tailCovers N k x ↔
      ∃ j : Int, 0 ≤ j ∧ j < k ∧ (N - 1) / k * k + j < N ∧ x = (N - 1) / k * k + j := by
  have ht : Int.tdiv (N - 1) k = (N - 1) / k := Int.tdiv_eq_ediv (by omega) (by omega)
  simp [tailCovers, evalE, unrollTailGuard, unrollTailIdx, unrollOuterExt, env0, ht,
    ite_one_zero_eq_one]

/-- C1 (amended): for extent N of at least 1 and positive unroll factor k,
    the index values covered by the steady-state outer loop copies together
    with the guarded tail conditionals form exactly the interval from 0 up
    to N (exclusive), with the steady and tail parts disjoint and each
    steady copy index reached from a unique (outer, copy) pair; in
    particular the last index N-1 is covered (by a tail conditional whose
    body has been stripped of prefetch writes), not excluded. -/
theorem claimC1_unroll_coverage (N k : Int) (hN : 1 ≤ N) (hk : 0 < k) :
    (∀ x : Int, (steadyCovers N k x ∨ tailCovers N k x) ↔ (0 ≤ x ∧ x < N))
    ∧ (∀ x : Int, ¬ (steadyCovers N k x ∧ tailCovers N k x))
    ∧ (∀ o1 j1 o2 j2 : Int, 0 ≤ j1 → j1 < k → 0 ≤ j2 → j2 < k →
         o1 * k + j1 = o2 * k + j2 → o1 = o2 ∧ j1 = j2) := by
  have hk0 : k ≠ 0 := by omega
  set q := (N - 1) / k with hq
  have hq0 : 0 ≤ q := Int.ediv_nonneg (by omega) (by omega)
  have hqk : q * k ≤ N - 1 := Int.ediv_mul_le (N - 1) hk0
  have hlt : N - 1 < (q + 1) * k := Int.lt_ediv_add_one_mul_self (N - 1) hk
  have hlt2 : N - 1 < q * k + k := by nlinarith
  have hsteadyLT : ∀ o j : Int, 0 ≤ o → o < q → 0 ≤ j → j < k → o * k + j < q * k := by
    intro o j ho1 ho2 hj1 hj2
    nlinarith [mul_le_mul_of_nonneg_right (show o + 1 ≤ q by omega) (le_of_lt hk)]
  refine ⟨?_, ?_, ?_⟩
  · intro x
    rw [steadyCovers_iff N k x hN hk, tailCovers_iff N k x hN hk, ← hq]
    constructor
    · rintro (⟨o, j, ho1, ho2, hj1, hj2, rfl⟩ | ⟨j, hj1, hj2, hg, rfl⟩)
      · have h1 := hsteadyLT o j ho1 ho2 hj1 hj2
        have h2 := mul_nonneg ho1 (le_of_lt hk)
        exact ⟨by linarith, by linarith⟩
      · have h2 := mul_nonneg hq0 (le_of_lt hk)
        exact ⟨by linarith, by linarith⟩
    · rintro ⟨hx0, hxN⟩
      by_cases hx : x < q * k
      · left
        refine ⟨x / k, x % k, Int.ediv_nonneg hx0 (le_of_lt hk),
          (Int.ediv_lt_iff_lt_mul hk).mpr hx,
          Int.emod_nonneg x hk0, Int.emod_lt_of_pos x hk, ?_⟩
        have hdm := Int.ediv_add_emod x k
        linarith [hdm, mul_comm (x / k) k]
      · right
        refine ⟨x - q * k, by linarith, by linarith, ?_, by ring⟩
        have h3 : q * k + (x - q * k) = x := by ring
        linarith
  · intro x
    rw [steadyCovers_iff N k x hN hk, tailCovers_iff N k x hN hk, ← hq]
    rintro ⟨⟨o, j, ho1, ho2, hj1, hj2, hx1⟩, ⟨j2, hj21, hj22, hg, hx2⟩⟩
    have h1 := hsteadyLT o j ho1 ho2 hj1 hj2
    linarith
  · intro o1 j1 o2 j2 h1 h2 h3 h4 heq
    have hoo : o1 = o2 := by
      rcases lt_trichotomy o1 o2 with h | h | h
      · exfalso
        nlinarith [mul_le_mul_of_nonneg_right (show o1 + 1 ≤ o2 by omega) (le_of_lt hk)]
      · exact h
      · exfalso
        nlinarith [mul_le_mul_of_nonneg_right (show o2 + 1 ≤ o1 by omega) (le_of_lt hk)]
    subst hoo
    exact ⟨rfl, by linarith⟩

theorem claimC1_witness :
    (steadyCovers 8 2 7 ∨ tailCovers 8 2 7) ↔ ((0 : Int) ≤ 7 ∧ (7 : Int) < 8) :=
  (claimC1_unroll_coverage 8 2 (by norm_num) (by norm_num)).1 7

/-- C1 counterexample: with extent 8 and factor 2, the tail conditionals
    cover index 7 = N-1, which the claim asserts to be excluded from the
    covered interval. -/
theorem claimC1_counterexample :
    tailCovers 8 2 7 ∧ ¬ ((7 : Int) < 8 - 1) := by
  refine ⟨⟨1, by decide, by decide, by decide, by decide⟩, by decide⟩

end DoubleBufferPass
